import Mathlib

/-!
Verification model of the encrypted data-exchange protocol and the media
decryption scheme of the imagesaas webhook backend (src/webhook.js and
src/index.js).  Byte buffers are modelled as lists of naturals below 256.
Platform cryptographic primitives (RSA-OAEP, the AES block permutation,
SHA-256, HMAC-SHA-256, the AES-GCM keystream and tag) are library calls,
not repository code, so they appear as abstract function parameters; all
protocol logic around them (base64, PKCS7 padding, CBC chaining, MAC
trailer layout, control flow and error routing) is modelled concretely
from the source.
-/

namespace ImageSaas

/-! ## Base64 (models Buffer.from(s, base64) and buf.toString(base64)) -/

/-- Value of one base64 alphabet character, none for characters outside the
alphabet (padding characters are skipped by the decoder, as Node does). -/
def b64Val (c : Char) : Option Nat :=
  if 'A' ≤ c ∧ c ≤ 'Z' then some (c.toNat - 65)
  else if 'a' ≤ c ∧ c ≤ 'z' then some (c.toNat - 97 + 26)
  else if '0' ≤ c ∧ c ≤ '9' then some (c.toNat - 48 + 52)
  else if c = '+' then some 62
  else if c = '/' then some 63
  else none

/-- Character for a 6-bit value. -/
def b64Char (n : Nat) : Char :=
  if n < 26 then Char.ofNat (65 + n)
  else if n < 52 then Char.ofNat (97 + (n - 26))
  else if n < 62 then Char.ofNat (48 + (n - 52))
  else if n = 62 then '+'
  else '/'

/-- Base64 encoding of a byte list, three input bytes per four output
characters, with trailing = padding as produced by Node. -/
def base64EncodeChunks : List Nat → List Char
  | a :: b :: c :: rest =>
      b64Char (a / 4) ::
      b64Char ((a % 4) * 16 + b / 16) ::
      b64Char ((b % 16) * 4 + c / 64) ::
      b64Char (c % 64) ::
      base64EncodeChunks rest
  | [a, b] =>
      [b64Char (a / 4), b64Char ((a % 4) * 16 + b / 16), b64Char ((b % 16) * 4), '=']
  | [a] =>
      [b64Char (a / 4), b64Char ((a % 4) * 16), '=', '=']
  | [] => []

def base64Encode (bs : List Nat) : String :=
  String.mk (base64EncodeChunks bs)

/-- Reassemble bytes from a list of 6-bit values: four values per three
bytes, a trailing group of three values gives two bytes, of two values one
byte, and a lone value is dropped (Node behaviour). -/
def b64DecodeSextets : List Nat → List Nat
  | a :: b :: c :: d :: rest =>
      (a * 4 + b / 16) :: ((b % 16) * 16 + c / 4) :: ((c % 4) * 64 + d) ::
      b64DecodeSextets rest
  | [a, b, c] => [a * 4 + b / 16, (b % 16) * 16 + c / 4]
  | [a, b] => [a * 4 + b / 16]
  | [_] => []
  | [] => []

def base64Decode (s : String) : List Nat :=
  b64DecodeSextets (s.toList.filterMap b64Val)

theorem b64Val_b64Char : ∀ n < 64, b64Val (b64Char n) = some n := by decide

theorem b64Val_pad : b64Val '=' = none := by decide

theorem decode_encode_chunks : ∀ bs : List Nat, (∀ b ∈ bs, b < 256) →
    b64DecodeSextets ((base64EncodeChunks bs).filterMap b64Val) = bs
  | a :: b :: c :: rest, h => by
      have ha : a < 256 := h a (by simp)
      have hb : b < 256 := h b (by simp)
      have hc : c < 256 := h c (by simp)
      have ih := decode_encode_chunks rest (fun x hx => h x (by simp [hx]))
      simp only [base64EncodeChunks, List.filterMap_cons,
        b64Val_b64Char _ (by omega : a / 4 < 64),
        b64Val_b64Char _ (by omega : (a % 4) * 16 + b / 16 < 64),
        b64Val_b64Char _ (by omega : (b % 16) * 4 + c / 64 < 64),
        b64Val_b64Char _ (by omega : c % 64 < 64),
        b64DecodeSextets, ih, List.cons.injEq, and_true]
      omega
  | [a, b], h => by
      have ha : a < 256 := h a (by simp)
      have hb : b < 256 := h b (by simp)
      simp only [base64EncodeChunks, List.filterMap_cons,
        b64Val_b64Char _ (by omega : a / 4 < 64),
        b64Val_b64Char _ (by omega : (a % 4) * 16 + b / 16 < 64),
        b64Val_b64Char _ (by omega : (b % 16) * 4 < 64),
        b64Val_pad, List.filterMap_nil, b64DecodeSextets, List.cons.injEq, and_true]
      omega
  | [a], h => by
      have ha : a < 256 := h a (by simp)
      simp only [base64EncodeChunks, List.filterMap_cons,
        b64Val_b64Char _ (by omega : a / 4 < 64),
        b64Val_b64Char _ (by omega : (a % 4) * 16 < 64),
        b64Val_pad, List.filterMap_nil, b64DecodeSextets, List.cons.injEq, and_true]
      omega
  | [], _ => rfl

/-- Decoding inverts encoding on byte lists. -/
theorem base64Decode_base64Encode (bs : List Nat) (h : ∀ b ∈ bs, b < 256) :
    base64Decode (base64Encode bs) = bs := by
  simpa [base64Decode, base64Encode] using decode_encode_chunks bs h

/-! ## PKCS7 padding and CBC mode

Models the aes-256-cbc decipher of the Node crypto module with automatic
padding enabled, over an abstract 16-byte block permutation (the AES block
cipher itself is a platform primitive).  Update plus final on a
block-aligned input is CBC chaining over 16-byte chunks followed by PKCS7
unpadding, with a padding error surfacing as a thrown error (none here). -/

/-- Bytewise xor of two equal-length byte lists. -/
def lxor (a b : List Nat) : List Nat := List.zipWith Nat.xor a b

def pkcs7pad (bs : List Nat) : List Nat :=
  bs ++ List.replicate (16 - bs.length % 16) (16 - bs.length % 16)

def pkcs7unpad (bs : List Nat) : Option (List Nat) :=
  match bs.getLast? with
  | none => none
  | some p =>
      if 1 ≤ p ∧ p ≤ 16 ∧ p ≤ bs.length ∧ bs.drop (bs.length - p) = List.replicate p p
      then some (bs.take (bs.length - p)) else none

/-- Split a byte list into chunks of 16 bytes, fuel-driven so that it
unfolds by kernel reduction. -/
def chunkAux : Nat → List Nat → List (List Nat)
  | 0, _ => []
  | _ + 1, [] => []
  | fuel + 1, x :: l => (x :: l).take 16 :: chunkAux fuel ((x :: l).drop 16)

def chunk16 (l : List Nat) : List (List Nat) := chunkAux l.length l

/-- CBC encryption chaining over already padded 16-byte blocks. -/
def cbcEncBlocks (benc : List Nat → List Nat) : List Nat → List (List Nat) → List (List Nat)
  | _, [] => []
  | prev, b :: rest =>
      let c := benc (lxor b prev)
      c :: cbcEncBlocks benc c rest

/-- CBC decryption chaining over 16-byte ciphertext blocks. -/
def cbcDecBlocks (bdec : List Nat → List Nat) : List Nat → List (List Nat) → List (List Nat)
  | _, [] => []
  | prev, c :: rest => lxor (bdec c) prev :: cbcDecBlocks bdec c rest

/-- CBC encryption with PKCS7 padding over an abstract block permutation
with the key already applied. -/
def aesCbcEncrypt (benc : List Nat → List Nat) (iv pt : List Nat) : List Nat :=
  (cbcEncBlocks benc iv (chunk16 (pkcs7pad pt))).flatten

/-- CBC decryption with automatic PKCS7 unpadding; none models the padding
error thrown by decipher.final. -/
def aesCbcDecrypt (bdec : List Nat → List Nat) (iv ct : List Nat) : Option (List Nat) :=
  pkcs7unpad ((cbcDecBlocks bdec iv (chunk16 ct)).flatten)

theorem lxor_length (a b : List Nat) : (lxor a b).length = min a.length b.length := by
  simp [lxor]

theorem lxor_cancel : ∀ a b : List Nat, a.length = b.length → lxor (lxor a b) b = a
  | [], [], _ => rfl
  | [], _ :: _, h => by simp at h
  | _ :: _, [], h => by simp at h
  | x :: a, y :: b, h => by
      simp only [lxor, List.zipWith_cons_cons, List.cons.injEq]
      refine ⟨Nat.xor_cancel_right _ _, ?_⟩
      exact lxor_cancel a b (by simpa using h)

theorem getLast?_replicate (x : Nat) : ∀ p, 1 ≤ p → (List.replicate p x).getLast? = some x
  | 1, _ => rfl
  | p + 2, _ => by
      rw [List.replicate_succ, List.replicate_succ, List.getLast?_cons_cons,
        ← List.replicate_succ]
      exact getLast?_replicate x (p + 1) (by omega)

theorem pkcs7pad_length (bs : List Nat) :
    (pkcs7pad bs).length = bs.length + (16 - bs.length % 16) := by
  simp [pkcs7pad]

theorem pkcs7pad_length_mod (bs : List Nat) : (pkcs7pad bs).length % 16 = 0 := by
  rw [pkcs7pad_length]
  omega

theorem pkcs7pad_ne_nil (bs : List Nat) : pkcs7pad bs ≠ [] := by
  intro h
  have := congrArg List.length h
  rw [pkcs7pad_length] at this
  simp at this
  omega

/-- Unpadding inverts padding. -/
theorem pkcs7unpad_pkcs7pad (bs : List Nat) : pkcs7unpad (pkcs7pad bs) = some bs := by
  have hp : 1 ≤ 16 - bs.length % 16 ∧ 16 - bs.length % 16 ≤ 16 := by omega
  have hlen : (pkcs7pad bs).length = bs.length + (16 - bs.length % 16) := pkcs7pad_length bs
  have hlast : (pkcs7pad bs).getLast? = some (16 - bs.length % 16) := by
    unfold pkcs7pad
    rw [List.getLast?_append_of_ne_nil _ (by simp; omega),
      getLast?_replicate _ _ hp.1]
  have hsub : (pkcs7pad bs).length - (16 - bs.length % 16) = bs.length := by omega
  have hdrop : (pkcs7pad bs).drop ((pkcs7pad bs).length - (16 - bs.length % 16))
      = List.replicate (16 - bs.length % 16) (16 - bs.length % 16) := by
    rw [hsub]
    unfold pkcs7pad
    exact List.drop_left _ _
  have htake : (pkcs7pad bs).take ((pkcs7pad bs).length - (16 - bs.length % 16)) = bs := by
    rw [hsub]
    unfold pkcs7pad
    exact List.take_left _ _
  simp only [pkcs7unpad, hlast]
  rw [if_pos ⟨hp.1, hp.2, by omega, hdrop⟩, htake]

theorem chunkAux_flatten : ∀ fuel l, l.length ≤ fuel → (chunkAux fuel l).flatten = l
  | 0, l, h => by
      simp at h
      simp [chunkAux, h]
  | fuel + 1, [], _ => by simp [chunkAux]
  | fuel + 1, x :: l, h => by
      rw [chunkAux, List.flatten_cons,
        chunkAux_flatten fuel ((x :: l).drop 16) (by simp; simp at h; omega),
        List.take_append_drop]

theorem chunkAux_mem_length : ∀ fuel l, l.length ≤ fuel → l.length % 16 = 0 →
    ∀ b ∈ chunkAux fuel l, b.length = 16
  | 0, _, _, _, _, hb => by simp [chunkAux] at hb
  | fuel + 1, [], _, _, _, hb => by simp [chunkAux] at hb
  | fuel + 1, x :: l, h, hmod, b, hb => by
      rw [chunkAux] at hb
      rcases List.mem_cons.mp hb with h1 | h1
      · subst h1
        simp only [List.length_take, List.length_cons]
        simp only [List.length_cons] at hmod
        omega
      · exact chunkAux_mem_length fuel ((x :: l).drop 16)
          (by simp; simp at h; omega)
          (by simp only [List.length_drop]; simp only [List.length_cons] at hmod ⊢; omega)
          b h1

theorem chunkAux_of_flatten : ∀ blocks : List (List Nat), ∀ fuel,
    (∀ b ∈ blocks, b.length = 16) → blocks.flatten.length ≤ fuel →
    chunkAux fuel blocks.flatten = blocks
  | [], 0, _, _ => rfl
  | [], fuel + 1, _, _ => by simp [chunkAux]
  | b :: blocks, fuel, hlen, hf => by
      have hb : b.length = 16 := hlen b (by simp)
      have hfl : (b :: blocks).flatten.length = 16 + blocks.flatten.length := by
        simp [hb]
      cases fuel with
      | zero => omega
      | succ f =>
          cases b with
          | nil => simp at hb
          | cons x b' =>
              have hb' : b'.length = 15 := by simpa using hb
              simp only [List.flatten_cons, List.cons_append, chunkAux]
              have h16 : (16 : Nat) = 15 + 1 := rfl
              rw [h16, List.take_succ_cons, List.drop_succ_cons, ← hb']
              have htk : List.take b'.length (List.append b' blocks.flatten) = b' :=
                List.take_left _ _
              have hdr : List.drop b'.length (List.append b' blocks.flatten) = blocks.flatten :=
                List.drop_left _ _
              rw [htk, hdr,
                chunkAux_of_flatten blocks f
                  (fun bb hbb => hlen bb (by simp [hbb]))
                  (by omega)]

theorem cbcEncBlocks_mem_length (benc : List Nat → List Nat)
    (hlen : ∀ x, (benc x).length = 16) :
    ∀ blocks prev, ∀ b ∈ cbcEncBlocks benc prev blocks, b.length = 16
  | [], _, _, hb => by simp [cbcEncBlocks] at hb
  | b :: rest, prev, bb, hb => by
      rw [cbcEncBlocks] at hb
      rcases List.mem_cons.mp hb with h1 | h1
      · rw [h1]; exact hlen _
      · exact cbcEncBlocks_mem_length benc hlen rest _ bb h1

theorem cbcDec_cbcEnc (benc bdec : List Nat → List Nat)
    (hinv : ∀ x, x.length = 16 → bdec (benc x) = x)
    (hlen : ∀ x, (benc x).length = 16) :
    ∀ blocks prev, (∀ b ∈ blocks, b.length = 16) → prev.length = 16 →
    cbcDecBlocks bdec prev (cbcEncBlocks benc prev blocks) = blocks
  | [], _, _, _ => rfl
  | b :: rest, prev, hbl, hprev => by
      have hb : b.length = 16 := hbl b (by simp)
      rw [cbcEncBlocks, cbcDecBlocks]
      have hx : (lxor b prev).length = 16 := by
        rw [lxor_length, hb, hprev]
        simp
      rw [hinv _ hx, lxor_cancel b prev (by omega),
        cbcDec_cbcEnc benc bdec hinv hlen rest (benc (lxor b prev))
          (fun x hxm => hbl x (by simp [hxm])) (hlen _)]

theorem chunk16_flatten (l : List Nat) : (chunk16 l).flatten = l :=
  chunkAux_flatten _ _ (le_refl _)

theorem chunk16_of_flatten (blocks : List (List Nat))
    (h : ∀ b ∈ blocks, b.length = 16) : chunk16 blocks.flatten = blocks :=
  chunkAux_of_flatten _ _ h (le_refl _)

theorem flatten_length_of_16 : ∀ blocks : List (List Nat),
    (∀ b ∈ blocks, b.length = 16) → blocks.flatten.length = 16 * blocks.length
  | [], _ => rfl
  | b :: rest, h => by
      rw [List.flatten_cons, List.length_append, h b (by simp),
        flatten_length_of_16 rest (fun x hx => h x (by simp [hx])), List.length_cons]
      ring

/-- CBC decryption with unpadding inverts CBC encryption with padding, for
any block permutation pair that invert each other on 16-byte blocks. -/
theorem aesCbcDecrypt_aesCbcEncrypt (benc bdec : List Nat → List Nat)
    (hinv : ∀ x, x.length = 16 → bdec (benc x) = x)
    (hlen : ∀ x, (benc x).length = 16)
    (iv pt : List Nat) (hiv : iv.length = 16) :
    aesCbcDecrypt bdec iv (aesCbcEncrypt benc iv pt) = some pt := by
  unfold aesCbcDecrypt aesCbcEncrypt
  have hmem : ∀ b ∈ chunk16 (pkcs7pad pt), b.length = 16 :=
    chunkAux_mem_length _ _ (le_refl _) (pkcs7pad_length_mod pt)
  have hencmem := cbcEncBlocks_mem_length benc hlen (chunk16 (pkcs7pad pt)) iv
  rw [chunk16_of_flatten _ hencmem,
    cbcDec_cbcEnc benc bdec hinv hlen _ _ hmem hiv,
    chunk16_flatten, pkcs7unpad_pkcs7pad]

theorem aesCbcEncrypt_length_mod (benc : List Nat → List Nat)
    (hlen : ∀ x, (benc x).length = 16) (iv pt : List Nat) :
    (aesCbcEncrypt benc iv pt).length % 16 = 0 := by
  unfold aesCbcEncrypt
  rw [flatten_length_of_16 _ (cbcEncBlocks_mem_length benc hlen _ _)]
  omega

theorem cbcEncBlocks_length (benc : List Nat → List Nat) :
    ∀ blocks prev, (cbcEncBlocks benc prev blocks).length = blocks.length
  | [], _ => rfl
  | b :: rest, prev => by
      rw [cbcEncBlocks, List.length_cons, List.length_cons,
        cbcEncBlocks_length benc rest _]

theorem chunk16_ne_nil (l : List Nat) (h : l ≠ []) : chunk16 l ≠ [] := by
  unfold chunk16
  cases l with
  | nil => exact absurd rfl h
  | cons x xs => simp [chunkAux]

theorem aesCbcEncrypt_length_pos (benc : List Nat → List Nat)
    (hlen : ∀ x, (benc x).length = 16) (iv pt : List Nat) :
    16 ≤ (aesCbcEncrypt benc iv pt).length := by
  unfold aesCbcEncrypt
  rw [flatten_length_of_16 _ (cbcEncBlocks_mem_length benc hlen _ _),
    cbcEncBlocks_length]
  have h1 : chunk16 (pkcs7pad pt) ≠ [] := chunk16_ne_nil _ (pkcs7pad_ne_nil pt)
  have h2 : 0 < (chunk16 (pkcs7pad pt)).length := List.length_pos.mpr h1
  omega

/-! ## MediaDecryptor (models decryptWhatsAppImage, src/webhook.js lines 431 to 513)

The platform primitives (HTTP fetch, SHA-256, HMAC-SHA-256 and the AES
block permutation) are abstract parameters; the protocol logic around
them is modelled statement by statement from the source.  The trace
records how many times the fetch, the HMAC computation and the CBC
decryption were invoked, mirroring the spy counters the specification
proposes for its tests. -/

/-- Truthiness of an optional string field, as JavaScript sees it: absent
and empty string are both falsy. -/
def jsTruthy : Option String → Bool
  | none => false
  | some s => s ≠ ""

structure EncryptionMetadata where
  encryption_key : String
  hmac_key : String
  iv : String
  encrypted_hash : Option String
  plaintext_hash : Option String

structure ImageData where
  cdn_url : String
  encryption_metadata : Option EncryptionMetadata

structure MediaPrims where
  fetch : String → Option (List Nat)
  sha256 : List Nat → List Nat
  hmacSha256 : List Nat → List Nat → List Nat
  aesBlockEnc : List Nat → List Nat → List Nat
  aesBlockDec : List Nat → List Nat → List Nat

inductive MediaErr where
  | missingFields
  | invalidKeyLength (field : String)
  | fetchFailed
  | payloadTooSmall
  | encryptedHashMismatch
  | hmacVerificationFailed
  | misalignedCiphertext
  | aesDecryptionFailed
deriving DecidableEq

structure MediaTrace where
  fetchCalls : Nat
  hmacCalls : Nat
  decryptCalls : Nat
deriving DecidableEq

/-- Model of decryptWhatsAppImage.  Returns the result together with the
trace of primitive invocations. -/
def decryptWhatsAppImage (P : MediaPrims) (imageData : ImageData) :
    Except MediaErr String × MediaTrace :=
  if imageData.cdn_url = "" then (.error .missingFields, ⟨0, 0, 0⟩) else
  match imageData.encryption_metadata with
  | none => (.error .missingFields, ⟨0, 0, 0⟩)
  | some md =>
    let keyBuf := base64Decode md.encryption_key
    let macKeyBuf := base64Decode md.hmac_key
    let ivBuf := base64Decode md.iv
    if keyBuf.length ≠ 32 then (.error (.invalidKeyLength "encryption_key"), ⟨0, 0, 0⟩)
    else if macKeyBuf.length ≠ 32 then (.error (.invalidKeyLength "hmac_key"), ⟨0, 0, 0⟩)
    else if ivBuf.length ≠ 16 then (.error (.invalidKeyLength "iv"), ⟨0, 0, 0⟩)
    else
      match P.fetch imageData.cdn_url with
      | none => (.error .fetchFailed, ⟨1, 0, 0⟩)
      | some encBuf =>
        if encBuf.length ≤ 10 then (.error .payloadTooSmall, ⟨1, 0, 0⟩)
        else if jsTruthy md.encrypted_hash ∧
            base64Encode (P.sha256 encBuf) ≠ md.encrypted_hash.getD "" then
          (.error .encryptedHashMismatch, ⟨1, 0, 0⟩)
        else
          let macTrailer := encBuf.drop (encBuf.length - 10)
          let cipherText := encBuf.take (encBuf.length - 10)
          let mac10 := (P.hmacSha256 macKeyBuf (ivBuf ++ cipherText)).take 10
          if mac10 ≠ macTrailer then (.error .hmacVerificationFailed, ⟨1, 1, 0⟩)
          else if cipherText.length % 16 ≠ 0 then (.error .misalignedCiphertext, ⟨1, 1, 0⟩)
          else
            match aesCbcDecrypt (P.aesBlockDec keyBuf) ivBuf cipherText with
            | none => (.error .aesDecryptionFailed, ⟨1, 1, 1⟩)
            | some decrypted =>
              -- The plaintext_hash check in the source only logs a warning
              -- on mismatch; the result is returned regardless.
              (.ok (base64Encode decrypted), ⟨1, 1, 1⟩)

/-! ## FlowCryptoChannel (models decryptRequest and encryptResponse,
src/webhook.js lines 360 to 428 and the identical copies in src/index.js)

AES-GCM is modelled at mode level: the keystream and the authentication
tag are abstract functions of key, nonce and data; the ciphertext is the
keystream xor of the plaintext with the 16-byte tag appended, matching
tagLength 128 of the source.  JSON serialization is abstract over the
payload type. -/

structure FlowPrims (Obj : Type) where
  rsaOaepDecrypt : List Nat → Option (List Nat)
  gcmKeystream : List Nat → List Nat → Nat → List Nat
  gcmTag : List Nat → List Nat → List Nat → List Nat
  stringify : Obj → List Nat
  parse : List Nat → Option Obj

/-- Key lengths accepted when importing a raw AES key. -/
def validAesKeyLength (n : Nat) : Prop := n = 16 ∨ n = 24 ∨ n = 32

instance (n : Nat) : Decidable (validAesKeyLength n) := by
  unfold validAesKeyLength
  infer_instance

def aesGcmEncrypt {Obj : Type} (P : FlowPrims Obj) (key iv pt : List Nat) : List Nat :=
  let ct := lxor pt (P.gcmKeystream key iv pt.length)
  ct ++ P.gcmTag key iv ct

def aesGcmDecrypt {Obj : Type} (P : FlowPrims Obj) (key iv data : List Nat) :
    Option (List Nat) :=
  if validAesKeyLength key.length ∧ iv ≠ [] ∧ 16 ≤ data.length then
    let ct := data.take (data.length - 16)
    let tag := data.drop (data.length - 16)
    if tag = P.gcmTag key iv ct then some (lxor ct (P.gcmKeystream key iv ct.length))
    else none
  else none

/-- Cause of the single catch-all decryption failure of decryptRequest;
the source rethrows one error kind whose message embeds the cause. -/
inductive FlowFailStep where
  | rsaUnwrap
  | gcmDecrypt
  | jsonParse
deriving DecidableEq

inductive FlowErr where
  | missingFields
  | decryptionFailed (cause : FlowFailStep)
  | encryptionFailed
deriving DecidableEq

structure FlowRequestBody where
  encrypted_aes_key : Option String
  encrypted_flow_data : Option String
  initial_vector : Option String

/-- Model of decryptRequest. -/
def decryptRequest {Obj : Type} (P : FlowPrims Obj) (body : FlowRequestBody) :
    Except FlowErr (Obj × List Nat × List Nat) :=
  if ¬ (jsTruthy body.encrypted_aes_key ∧ jsTruthy body.encrypted_flow_data ∧
      jsTruthy body.initial_vector) then
    .error .missingFields
  else
    let encryptedAesKeyBuffer := base64Decode (body.encrypted_aes_key.getD "")
    match P.rsaOaepDecrypt encryptedAesKeyBuffer with
    | none => .error (.decryptionFailed .rsaUnwrap)
    | some aesKeyBuffer =>
      let flowDataBuffer := base64Decode (body.encrypted_flow_data.getD "")
      let initialVectorBuffer := base64Decode (body.initial_vector.getD "")
      match aesGcmDecrypt P aesKeyBuffer initialVectorBuffer flowDataBuffer with
      | none => .error (.decryptionFailed .gcmDecrypt)
      | some plaintextBytes =>
        match P.parse plaintextBytes with
        | none => .error (.decryptionFailed .jsonParse)
        | some decryptedBody => .ok (decryptedBody, aesKeyBuffer, initialVectorBuffer)

/-- Bitwise complement of one byte, the source maps each IV byte b to
the value of not b masked to eight bits. -/
def flipByte (b : Nat) : Nat := 255 - b % 256

def flipIv (iv : List Nat) : List Nat := iv.map flipByte

/-- Model of encryptResponse. -/
def encryptResponse {Obj : Type} (P : FlowPrims Obj) (response : Obj)
    (aesKeyBuffer initialVectorBuffer : List Nat) : Except FlowErr String :=
  let flippedIv := flipIv initialVectorBuffer
  if validAesKeyLength aesKeyBuffer.length ∧ flippedIv ≠ [] then
    let responseBuffer := P.stringify response
    .ok (base64Encode (aesGcmEncrypt P aesKeyBuffer flippedIv responseBuffer))
  else .error .encryptionFailed

/-- Model of handleEncryptedFlowDataExchange, src/index.js lines 655 to
684: decrypt the request, hand the payload to the business layer (the
abstract route function), encrypt its response with the key and IV
returned by decryptRequest. -/
def handleEncryptedFlowDataExchange {Obj : Type} (P : FlowPrims Obj)
    (route : Obj → Obj) (body : FlowRequestBody) : Except FlowErr String :=
  match decryptRequest P body with
  | .error e => .error e
  | .ok (decryptedBody, aesKeyBuffer, initialVectorBuffer) =>
      encryptResponse P (route decryptedBody) aesKeyBuffer initialVectorBuffer

/-! ## Claims about MediaDecryptor -/

/-- C2: for every descriptor and fetched buffer longer than 10 bytes that
passes the optional ciphertext digest check, the MAC is computed as
HMAC-SHA-256 under the hmac key of the IV followed by the ciphertext,
truncated to its first 10 bytes and compared with the 10-byte trailer;
whenever the comparison fails the operation fails with the MAC
verification error and the block cipher decryption step is never invoked
(decrypt counter stays 0). -/
theorem c2_mac_mismatch_rejected
    (P : MediaPrims) (img : ImageData) (md : EncryptionMetadata) (encBuf : List Nat)
    (hurl : img.cdn_url ≠ "")
    (hmd : img.encryption_metadata = some md)
    (hk : (base64Decode md.encryption_key).length = 32)
    (hm : (base64Decode md.hmac_key).length = 32)
    (hiv : (base64Decode md.iv).length = 16)
    (hfetch : P.fetch img.cdn_url = some encBuf)
    (hlen : 10 < encBuf.length)
    (hdig : jsTruthy md.encrypted_hash →
        base64Encode (P.sha256 encBuf) = md.encrypted_hash.getD "")
    (hmac : (P.hmacSha256 (base64Decode md.hmac_key)
        (base64Decode md.iv ++ encBuf.take (encBuf.length - 10))).take 10
        ≠ encBuf.drop (encBuf.length - 10)) :
    decryptWhatsAppImage P img = (.error .hmacVerificationFailed, ⟨1, 1, 0⟩) := by
  have h10 : ¬ (encBuf.length ≤ 10) := by omega
  have hdig2 : ¬ (jsTruthy md.encrypted_hash = true ∧
      ¬ base64Encode (P.sha256 encBuf) = md.encrypted_hash.getD "") := by
    rintro ⟨ht, hne⟩
    exact hne (hdig ht)
  simp [decryptWhatsAppImage, hmd, hurl, hk, hm, hiv, hfetch, h10, hdig2, hmac]

/-- C6: for every descriptor whose encryption key does not decode to 32
bytes, or whose hmac key does not decode to 32 bytes, or whose IV does not
decode to 16 bytes, the operation fails with the invalid key length error
and the fetch of the content URL is never invoked (fetch counter stays
0). -/
theorem c6_invalid_key_length_before_fetch
    (P : MediaPrims) (img : ImageData) (md : EncryptionMetadata)
    (hurl : img.cdn_url ≠ "")
    (hmd : img.encryption_metadata = some md)
    (hbad : ¬ ((base64Decode md.encryption_key).length = 32 ∧
        (base64Decode md.hmac_key).length = 32 ∧
        (base64Decode md.iv).length = 16)) :
    (decryptWhatsAppImage P img).2 = ⟨0, 0, 0⟩ ∧
    ∃ f, (decryptWhatsAppImage P img).1 = .error (.invalidKeyLength f) := by
  by_cases h1 : (base64Decode md.encryption_key).length = 32
  · by_cases h2 : (base64Decode md.hmac_key).length = 32
    · have h3 : (base64Decode md.iv).length ≠ 16 := by tauto
      have : decryptWhatsAppImage P img = (.error (.invalidKeyLength "iv"), ⟨0, 0, 0⟩) := by
        simp [decryptWhatsAppImage, hmd, hurl, h1, h2, h3]
      rw [this]
      exact ⟨rfl, "iv", rfl⟩
    · have : decryptWhatsAppImage P img
          = (.error (.invalidKeyLength "hmac_key"), ⟨0, 0, 0⟩) := by
        simp [decryptWhatsAppImage, hmd, hurl, h1, h2]
      rw [this]
      exact ⟨rfl, "hmac_key", rfl⟩
  · have : decryptWhatsAppImage P img
        = (.error (.invalidKeyLength "encryption_key"), ⟨0, 0, 0⟩) := by
      simp [decryptWhatsAppImage, hmd, hurl, h1]
    rw [this]
    exact ⟨rfl, "encryption_key", rfl⟩

/-- C7: for every descriptor supplying an expected ciphertext digest, the
operation computes SHA-256 over the full fetched buffer before trailer
removal, base64-encodes it, and on mismatch fails with the ciphertext
digest error before MAC verification is attempted (HMAC counter stays
0). -/
theorem c7_digest_mismatch_before_mac
    (P : MediaPrims) (img : ImageData) (md : EncryptionMetadata)
    (encBuf : List Nat) (h : String)
    (hurl : img.cdn_url ≠ "")
    (hmd : img.encryption_metadata = some md)
    (hk : (base64Decode md.encryption_key).length = 32)
    (hm : (base64Decode md.hmac_key).length = 32)
    (hiv : (base64Decode md.iv).length = 16)
    (hfetch : P.fetch img.cdn_url = some encBuf)
    (hlen : 10 < encBuf.length)
    (hhash : md.encrypted_hash = some h)
    (hne : h ≠ "")
    (hmis : base64Encode (P.sha256 encBuf) ≠ h) :
    decryptWhatsAppImage P img = (.error .encryptedHashMismatch, ⟨1, 0, 0⟩) := by
  have h10 : ¬ (encBuf.length ≤ 10) := by omega
  simp [decryptWhatsAppImage, hmd, hurl, hk, hm, hiv, hfetch, h10, hhash, hne, hmis,
    jsTruthy]

/-- C8: a fetched buffer of length at most 10 fails with the payload too
small error; a longer buffer whose ciphertext portion is not a multiple
of 16 fails with the misaligned ciphertext error even when the MAC
trailer verifies, and the block cipher decrypt call is never reached
(decrypt counter stays 0 in both cases). -/
theorem c8_length_boundaries :
    (∀ (P : MediaPrims) (img : ImageData) (md : EncryptionMetadata) (encBuf : List Nat),
      img.cdn_url ≠ "" →
      img.encryption_metadata = some md →
      (base64Decode md.encryption_key).length = 32 →
      (base64Decode md.hmac_key).length = 32 →
      (base64Decode md.iv).length = 16 →
      P.fetch img.cdn_url = some encBuf →
      encBuf.length ≤ 10 →
      decryptWhatsAppImage P img = (.error .payloadTooSmall, ⟨1, 0, 0⟩)) ∧
    (∀ (P : MediaPrims) (img : ImageData) (md : EncryptionMetadata) (encBuf : List Nat),
      img.cdn_url ≠ "" →
      img.encryption_metadata = some md →
      (base64Decode md.encryption_key).length = 32 →
      (base64Decode md.hmac_key).length = 32 →
      (base64Decode md.iv).length = 16 →
      P.fetch img.cdn_url = some encBuf →
      10 < encBuf.length →
      (jsTruthy md.encrypted_hash →
        base64Encode (P.sha256 encBuf) = md.encrypted_hash.getD "") →
      (P.hmacSha256 (base64Decode md.hmac_key)
        (base64Decode md.iv ++ encBuf.take (encBuf.length - 10))).take 10
        = encBuf.drop (encBuf.length - 10) →
      (encBuf.length - 10) % 16 ≠ 0 →
      decryptWhatsAppImage P img = (.error .misalignedCiphertext, ⟨1, 1, 0⟩)) := by
  constructor
  · intro P img md encBuf hurl hmd hk hm hiv hfetch hsmall
    simp [decryptWhatsAppImage, hmd, hurl, hk, hm, hiv, hfetch, hsmall]
  · intro P img md encBuf hurl hmd hk hm hiv hfetch hlen hdig hmac halign
    have h10 : ¬ (encBuf.length ≤ 10) := by omega
    have hdig2 : ¬ (jsTruthy md.encrypted_hash = true ∧
        ¬ base64Encode (P.sha256 encBuf) = md.encrypted_hash.getD "") := by
      rintro ⟨ht, hne⟩
      exact hne (hdig ht)
    simp [decryptWhatsAppImage, hmd, hurl, hk, hm, hiv, hfetch, h10, hdig2, hmac,
      halign]

/-- C9: when every check up to and including decryption succeeds but the
supplied expected plaintext digest does not match the SHA-256 of the
decrypted bytes, the operation still returns the decrypted bytes base64
encoded, with no error: the plaintext digest check is advisory only. -/
theorem c9_plaintext_digest_advisory
    (P : MediaPrims) (img : ImageData) (md : EncryptionMetadata)
    (encBuf decrypted : List Nat) (h : String)
    (hurl : img.cdn_url ≠ "")
    (hmd : img.encryption_metadata = some md)
    (hk : (base64Decode md.encryption_key).length = 32)
    (hm : (base64Decode md.hmac_key).length = 32)
    (hiv : (base64Decode md.iv).length = 16)
    (hfetch : P.fetch img.cdn_url = some encBuf)
    (hlen : 10 < encBuf.length)
    (hdig : jsTruthy md.encrypted_hash →
        base64Encode (P.sha256 encBuf) = md.encrypted_hash.getD "")
    (hmac : (P.hmacSha256 (base64Decode md.hmac_key)
        (base64Decode md.iv ++ encBuf.take (encBuf.length - 10))).take 10
        = encBuf.drop (encBuf.length - 10))
    (halign : (encBuf.length - 10) % 16 = 0)
    (hcbc : aesCbcDecrypt (P.aesBlockDec (base64Decode md.encryption_key))
        (base64Decode md.iv) (encBuf.take (encBuf.length - 10)) = some decrypted)
    (hph : md.plaintext_hash = some h)
    (hmis : base64Encode (P.sha256 decrypted) ≠ h) :
    decryptWhatsAppImage P img = (.ok (base64Encode decrypted), ⟨1, 1, 1⟩) := by
  have h10 : ¬ (encBuf.length ≤ 10) := by omega
  have hdig2 : ¬ (jsTruthy md.encrypted_hash = true ∧
      ¬ base64Encode (P.sha256 encBuf) = md.encrypted_hash.getD "") := by
    rintro ⟨ht, hne⟩
    exact hne (hdig ht)
  simp [decryptWhatsAppImage, hmd, hurl, hk, hm, hiv, hfetch, h10, hdig2, hmac,
    halign, hcbc]

/-- C3: for every plaintext, 32-byte encryption key, 32-byte hmac key and
16-byte IV, if the fetched buffer is the CBC encryption of the PKCS7
padded plaintext followed by the first 10 bytes of HMAC-SHA-256 of the
hmac key over the IV followed by the ciphertext, then the operation
succeeds and its base64 return value decodes to exactly the original
plaintext.  The block permutation pair is abstract, assumed mutually
inverse on 16-byte blocks with 16-byte output. -/
theorem c3_cbc_hmac_roundtrip
    (P : MediaPrims) (img : ImageData) (md : EncryptionMetadata)
    (kb mkb ivb pt : List Nat)
    (hurl : img.cdn_url ≠ "")
    (hmd : img.encryption_metadata = some md)
    (hkey : md.encryption_key = base64Encode kb)
    (hmkey : md.hmac_key = base64Encode mkb)
    (hivf : md.iv = base64Encode ivb)
    (hkb : kb.length = 32) (hkb8 : ∀ b ∈ kb, b < 256)
    (hmkb : mkb.length = 32) (hmkb8 : ∀ b ∈ mkb, b < 256)
    (hivb : ivb.length = 16) (hivb8 : ∀ b ∈ ivb, b < 256)
    (hpt8 : ∀ b ∈ pt, b < 256)
    (hinv : ∀ x, x.length = 16 → P.aesBlockDec kb (P.aesBlockEnc kb x) = x)
    (hencl : ∀ x, (P.aesBlockEnc kb x).length = 16)
    (hhmacl : ∀ k m, (P.hmacSha256 k m).length = 32)
    (hfetch : P.fetch img.cdn_url = some
      (aesCbcEncrypt (P.aesBlockEnc kb) ivb pt ++
        (P.hmacSha256 mkb (ivb ++ aesCbcEncrypt (P.aesBlockEnc kb) ivb pt)).take 10))
    (hdig : jsTruthy md.encrypted_hash →
        base64Encode (P.sha256
          (aesCbcEncrypt (P.aesBlockEnc kb) ivb pt ++
            (P.hmacSha256 mkb (ivb ++ aesCbcEncrypt (P.aesBlockEnc kb) ivb pt)).take 10))
          = md.encrypted_hash.getD "") :
    decryptWhatsAppImage P img = (.ok (base64Encode pt), ⟨1, 1, 1⟩) ∧
    base64Decode (base64Encode pt) = pt := by
  have hdk : base64Decode md.encryption_key = kb := by
    rw [hkey]
    exact base64Decode_base64Encode kb hkb8
  have hdm : base64Decode md.hmac_key = mkb := by
    rw [hmkey]
    exact base64Decode_base64Encode mkb hmkb8
  have hdi : base64Decode md.iv = ivb := by
    rw [hivf]
    exact base64Decode_base64Encode ivb hivb8
  set ct := aesCbcEncrypt (P.aesBlockEnc kb) ivb pt with hct
  set trailer := (P.hmacSha256 mkb (ivb ++ ct)).take 10 with htr
  have hctmod : ct.length % 16 = 0 := aesCbcEncrypt_length_mod _ hencl _ _
  have hctpos : 16 ≤ ct.length := aesCbcEncrypt_length_pos _ hencl _ _
  have htrlen : trailer.length = 10 := by
    rw [htr, List.length_take, hhmacl]
    simp
  have hbuflen : (ct ++ trailer).length = ct.length + 10 := by
    rw [List.length_append, htrlen]
  have h10 : ¬ ((ct ++ trailer).length ≤ 10) := by omega
  have hsub : (ct ++ trailer).length - 10 = ct.length := by omega
  have htake : (ct ++ trailer).take ((ct ++ trailer).length - 10) = ct := by
    rw [hsub]
    exact List.take_left _ _
  have hdrop : (ct ++ trailer).drop ((ct ++ trailer).length - 10) = trailer := by
    rw [hsub]
    exact List.drop_left _ _
  have hdig2 : ¬ (jsTruthy md.encrypted_hash = true ∧
      ¬ base64Encode (P.sha256 (ct ++ trailer)) = md.encrypted_hash.getD "") := by
    rintro ⟨ht, hne⟩
    exact hne (hdig ht)
  have hcbc : aesCbcDecrypt (P.aesBlockDec kb) ivb ct = some pt :=
    aesCbcDecrypt_aesCbcEncrypt (P.aesBlockEnc kb) (P.aesBlockDec kb)
      hinv hencl ivb pt hivb
  have halign : ((ct ++ trailer).length - 10) % 16 = 0 := by
    rw [hsub]
    exact hctmod
  refine ⟨?_, base64Decode_base64Encode pt hpt8⟩
  simp only [decryptWhatsAppImage, hmd, if_neg hurl, hdk, hdm, hdi, hkb, hmkb, hivb,
    hfetch, if_neg h10, if_neg hdig2, htake, hdrop]
  simp [hcbc, halign, hsub, htake, hdrop, hctmod]

/-! ## Claims about FlowCryptoChannel -/

theorem xor_byte_lt (a b : Nat) (ha : a < 256) (hb : b < 256) : a ^^^ b < 256 := by
  have h := Nat.xor_lt_two_pow (n := 8) (by simpa using ha) (by simpa using hb)
  simpa using h

theorem lxor_mem_bound : ∀ a b : List Nat, (∀ x ∈ a, x < 256) → (∀ x ∈ b, x < 256) →
    ∀ x ∈ lxor a b, x < 256
  | [], _, _, _, x, hx => by simp [lxor] at hx
  | _ :: _, [], _, _, x, hx => by simp [lxor] at hx
  | p :: a, q :: b, ha, hb, x, hx => by
      simp only [lxor, List.zipWith_cons_cons, List.mem_cons] at hx
      rcases hx with h | h
      · subst h
        exact xor_byte_lt p q (ha p (by simp)) (hb q (by simp))
      · exact lxor_mem_bound a b (fun y hy => ha y (by simp [hy]))
          (fun y hy => hb y (by simp [hy])) x h

theorem jsTruthy_some (o : Option String) (h : jsTruthy o = true) :
    o = some (o.getD "") := by
  cases o with
  | none => simp [jsTruthy] at h
  | some s => rfl

theorem flipIv_ne_nil (iv : List Nat) (h : iv ≠ []) : flipIv iv ≠ [] := by
  cases iv with
  | nil => exact absurd rfl h
  | cons x l => simp [flipIv]

/-- C1 (amended): whenever the key unwrap and the AES-GCM decryption both
succeed but the resulting plaintext fails to parse as JSON, decryptRequest
fails through the same catch-all decryption failure used for the
cryptographic and tamper failures, with the JSON cause only in the
diagnostic message; there is no distinct invalid-json error, because the
source wraps the JSON parse inside the same try block as the decryption
steps. -/
theorem c1_json_failure_uses_decrypt_failed {Obj : Type}
    (P : FlowPrims Obj) (body : FlowRequestBody) (k pt : List Nat)
    (hf1 : jsTruthy body.encrypted_aes_key)
    (hf2 : jsTruthy body.encrypted_flow_data)
    (hf3 : jsTruthy body.initial_vector)
    (hrsa : P.rsaOaepDecrypt (base64Decode (body.encrypted_aes_key.getD "")) = some k)
    (hgcm : aesGcmDecrypt P k (base64Decode (body.initial_vector.getD ""))
        (base64Decode (body.encrypted_flow_data.getD "")) = some pt)
    (hparse : P.parse pt = none) :
    decryptRequest P body = .error (.decryptionFailed .jsonParse) := by
  simp [decryptRequest, hf1, hf2, hf3, hrsa, hgcm, hparse]

/-- Concrete primitives for the C1 counterexample: unwrap and decryption
succeed, JSON parsing fails. -/
def c1Prims : FlowPrims (List Nat) where
  rsaOaepDecrypt := fun _ => some (List.replicate 32 0)
  gcmKeystream := fun _ _ n => List.replicate n 0
  gcmTag := fun _ _ _ => List.replicate 16 0
  stringify := fun o => o
  parse := fun _ => none

def c1Body : FlowRequestBody where
  encrypted_aes_key := some "QQ=="
  encrypted_flow_data := some (base64Encode (List.replicate 16 0))
  initial_vector := some "QQ=="

/-- C1 counterexample: a concrete request on which the key unwrap and the
AES-GCM decryption succeed and JSON parsing fails, yet the operation
fails with the catch-all decryption failure, not a distinct invalid-json
error kind, contradicting the claim that such failures are reported apart
from the decrypt failures. -/
theorem c1_counterexample :
    c1Prims.rsaOaepDecrypt (base64Decode (c1Body.encrypted_aes_key.getD ""))
      = some (List.replicate 32 0) ∧
    aesGcmDecrypt c1Prims (List.replicate 32 0)
      (base64Decode (c1Body.initial_vector.getD ""))
      (base64Decode (c1Body.encrypted_flow_data.getD "")) = some [] ∧
    c1Prims.parse [] = none ∧
    decryptRequest c1Prims c1Body = .error (.decryptionFailed .jsonParse) := by
  refine ⟨rfl, by decide, rfl, rfl⟩

/-- C4: for every payload, 32-byte key and 16-byte IV, AES-GCM-decrypting
the base64-decoded output of encryptResponse with the same key and the
bytewise-complemented IV succeeds and yields the serialized payload,
which parses back to exactly the original object, assuming the payload is
JSON serializable in the sense that parse inverts stringify on it. -/
theorem c4_gcm_roundtrip {Obj : Type} (P : FlowPrims Obj) (O : Obj) (K V : List Nat)
    (hjson : P.parse (P.stringify O) = some O)
    (hK : K.length = 32)
    (hV : V.length = 16)
    (hksl : ∀ n, (P.gcmKeystream K (flipIv V) n).length = n)
    (hks8 : ∀ n, ∀ b ∈ P.gcmKeystream K (flipIv V) n, b < 256)
    (htagl : ∀ c, (P.gcmTag K (flipIv V) c).length = 16)
    (htag8 : ∀ c, ∀ b ∈ P.gcmTag K (flipIv V) c, b < 256)
    (hpt8 : ∀ b ∈ P.stringify O, b < 256) :
    ∃ s pt, encryptResponse P O K V = .ok s ∧
      aesGcmDecrypt P K (flipIv V) (base64Decode s) = some pt ∧
      P.parse pt = some O := by
  have hivne : flipIv V ≠ [] := flipIv_ne_nil V (by
    intro h
    rw [h] at hV
    simp at hV)
  have hvalid : validAesKeyLength K.length := Or.inr (Or.inr hK)
  set msg := P.stringify O with hmsg
  set ks := P.gcmKeystream K (flipIv V) msg.length with hks
  set ct := lxor msg ks with hctdef
  set tag := P.gcmTag K (flipIv V) ct with htag
  have hkslen : ks.length = msg.length := hksl msg.length
  have hctlen : ct.length = msg.length := by
    rw [hctdef, lxor_length, hkslen]
    simp
  have henc : aesGcmEncrypt P K (flipIv V) msg = ct ++ tag := rfl
  have hencbytes : ∀ b ∈ ct ++ tag, b < 256 := by
    intro b hb
    rcases List.mem_append.mp hb with h | h
    · exact lxor_mem_bound msg ks hpt8 (hks8 msg.length) b h
    · exact htag8 ct b h
  have hdec : base64Decode (base64Encode (ct ++ tag)) = ct ++ tag :=
    base64Decode_base64Encode _ hencbytes
  have htags : tag.length = 16 := htagl ct
  have hlen16 : 16 ≤ (ct ++ tag).length := by
    rw [List.length_append, htags]
    omega
  have hsub : (ct ++ tag).length - 16 = ct.length := by
    rw [List.length_append, htags]
    omega
  have htake : (ct ++ tag).take ((ct ++ tag).length - 16) = ct := by
    rw [hsub]
    exact List.take_left _ _
  have hdropt : (ct ++ tag).drop ((ct ++ tag).length - 16) = tag := by
    rw [hsub]
    exact List.drop_left _ _
  refine ⟨base64Encode (ct ++ tag), msg, ?_, ?_, hjson⟩
  · simp only [encryptResponse, if_pos (And.intro hvalid hivne)]
    rw [henc]
  · rw [hdec]
    simp only [aesGcmDecrypt, if_pos (And.intro hvalid (And.intro hivne hlen16)),
      htake, hdropt]
    rw [if_pos (by simp [htag])]
    have hfin : lxor ct (P.gcmKeystream K (flipIv V) ct.length) = msg := by
      rw [hctlen, ← hks, hctdef]
      exact lxor_cancel msg ks hkslen.symm
    rw [hfin]

/-- Inversion of a successful decryptRequest: the returned key is exactly
the RSA-OAEP unwrap of the base64-decoded wrapped key field, the returned
IV is exactly the base64-decoded IV field, and the payload came from a
successful AES-GCM decryption followed by a successful parse. -/
theorem decryptRequest_ok_inv {Obj : Type} (P : FlowPrims Obj) (body : FlowRequestBody)
    (o : Obj) (k iv : List Nat)
    (hok : decryptRequest P body = .ok (o, k, iv)) :
    jsTruthy body.encrypted_aes_key = true ∧
    jsTruthy body.encrypted_flow_data = true ∧
    jsTruthy body.initial_vector = true ∧
    P.rsaOaepDecrypt (base64Decode (body.encrypted_aes_key.getD "")) = some k ∧
    iv = base64Decode (body.initial_vector.getD "") ∧
    ∃ pt, aesGcmDecrypt P k iv (base64Decode (body.encrypted_flow_data.getD ""))
        = some pt ∧ P.parse pt = some o := by
  simp only [decryptRequest] at hok
  by_cases hf : jsTruthy body.encrypted_aes_key = true ∧
      jsTruthy body.encrypted_flow_data = true ∧ jsTruthy body.initial_vector = true
  · rw [if_neg (not_not_intro hf)] at hok
    obtain ⟨hf1, hf2, hf3⟩ := hf
    cases hr : P.rsaOaepDecrypt (base64Decode (body.encrypted_aes_key.getD "")) with
    | none => simp only [hr] at hok; simp at hok
    | some k1 =>
        simp only [hr] at hok
        cases hg : aesGcmDecrypt P k1 (base64Decode (body.initial_vector.getD ""))
            (base64Decode (body.encrypted_flow_data.getD "")) with
        | none => simp only [hg] at hok; simp at hok
        | some pt =>
            simp only [hg] at hok
            cases hp : P.parse pt with
            | none => simp only [hp] at hok; simp at hok
            | some o1 =>
                simp only [hp] at hok
                simp only [Except.ok.injEq, Prod.mk.injEq] at hok
                obtain ⟨ho, hk, hiv⟩ := hok
                subst ho
                subst hk
                subst hiv
                exact ⟨hf1, hf2, hf3, rfl, rfl, pt, hg, hp⟩
  · rw [if_pos hf] at hok
    simp at hok

/-- C5: on every successfully processed flow request, the symmetric key
and the IV returned by decryptRequest are exactly the bytes unwrapped
and decoded from the request, and the data exchange handler encrypts the
outbound response with that same key and an IV equal to the bytewise
complement of the request IV, with no other transformation. -/
theorem c5_key_iv_reused_exactly {Obj : Type} (P : FlowPrims Obj) (route : Obj → Obj)
    (body : FlowRequestBody) (o : Obj) (k iv : List Nat)
    (hok : decryptRequest P body = .ok (o, k, iv))
    (hkl : validAesKeyLength k.length)
    (hivne : iv ≠ []) :
    (∃ ekS ivS, body.encrypted_aes_key = some ekS ∧ body.initial_vector = some ivS ∧
      P.rsaOaepDecrypt (base64Decode ekS) = some k ∧ iv = base64Decode ivS) ∧
    handleEncryptedFlowDataExchange P route body =
      .ok (base64Encode (aesGcmEncrypt P k (flipIv iv) (P.stringify (route o)))) := by
  obtain ⟨hf1, hf2, hf3, hrsa, hiveq, pt, hgcm, hparse⟩ :=
    decryptRequest_ok_inv P body o k iv hok
  constructor
  · exact ⟨body.encrypted_aes_key.getD "", body.initial_vector.getD "",
      jsTruthy_some _ hf1, jsTruthy_some _ hf3, hrsa, hiveq⟩
  · simp only [handleEncryptedFlowDataExchange, hok]
    simp only [encryptResponse, if_pos (And.intro hkl (flipIv_ne_nil iv hivne))]

/-- C10: whenever encryptResponse succeeds on a 32-byte key and a 16-byte
IV, its base64 return value decodes to exactly L plus 16 bytes, where L
is the byte length of the serialized response: the GCM ciphertext has the
length of the plaintext and the appended tag has 16 bytes, so the length
of the encrypted response reveals the exact plaintext length. -/
theorem c10_output_length_reveals_plaintext_length {Obj : Type}
    (P : FlowPrims Obj) (O : Obj) (K V : List Nat)
    (hK : K.length = 32) (hV : V.length = 16)
    (hksl : ∀ n, (P.gcmKeystream K (flipIv V) n).length = n)
    (hks8 : ∀ n, ∀ b ∈ P.gcmKeystream K (flipIv V) n, b < 256)
    (htagl : ∀ c, (P.gcmTag K (flipIv V) c).length = 16)
    (htag8 : ∀ c, ∀ b ∈ P.gcmTag K (flipIv V) c, b < 256)
    (hpt8 : ∀ b ∈ P.stringify O, b < 256) :
    ∃ s, encryptResponse P O K V = .ok s ∧
      (base64Decode s).length = (P.stringify O).length + 16 := by
  have hivne : flipIv V ≠ [] := flipIv_ne_nil V (by
    intro h
    rw [h] at hV
    simp at hV)
  have hvalid : validAesKeyLength K.length := Or.inr (Or.inr hK)
  set msg := P.stringify O with hmsg
  set ks := P.gcmKeystream K (flipIv V) msg.length with hks
  set ct := lxor msg ks with hctdef
  set tag := P.gcmTag K (flipIv V) ct with htag
  have hkslen : ks.length = msg.length := hksl msg.length
  have hctlen : ct.length = msg.length := by
    rw [hctdef, lxor_length, hkslen]
    simp
  have henc : aesGcmEncrypt P K (flipIv V) msg = ct ++ tag := rfl
  have hencbytes : ∀ b ∈ ct ++ tag, b < 256 := by
    intro b hb
    rcases List.mem_append.mp hb with h | h
    · exact lxor_mem_bound msg ks hpt8 (hks8 msg.length) b h
    · exact htag8 ct b h
  refine ⟨base64Encode (ct ++ tag), ?_, ?_⟩
  · simp only [encryptResponse, if_pos (And.intro hvalid hivne)]
    rw [henc]
  · rw [base64Decode_base64Encode _ hencbytes, List.length_append, hctlen, htagl]

/-! ## Concrete witnesses -/

/-- Media primitives with a fixed fetch result, a constant hash, a
constant MAC and an identity-style block permutation pair. -/
def mkPrims (fetched : List Nat) : MediaPrims where
  fetch := fun _ => some fetched
  sha256 := fun _ => List.replicate 32 0
  hmacSha256 := fun _ _ => List.replicate 32 0
  aesBlockEnc := fun _ b => (b ++ List.replicate 16 0).take 16
  aesBlockDec := fun _ b => b

def wMdPlain : EncryptionMetadata where
  encryption_key := base64Encode (List.replicate 32 0)
  hmac_key := base64Encode (List.replicate 32 0)
  iv := base64Encode (List.replicate 16 0)
  encrypted_hash := none
  plaintext_hash := none

def wImgPlain : ImageData where
  cdn_url := "u"
  encryption_metadata := some wMdPlain

theorem c2_mac_mismatch_rejected_witness :
    decryptWhatsAppImage (mkPrims (List.replicate 16 0 ++ List.replicate 10 1)) wImgPlain
      = (.error .hmacVerificationFailed, ⟨1, 1, 0⟩) :=
  c2_mac_mismatch_rejected (mkPrims (List.replicate 16 0 ++ List.replicate 10 1))
    wImgPlain wMdPlain (List.replicate 16 0 ++ List.replicate 10 1)
    (by decide) rfl (by decide) (by decide) (by decide) rfl (by decide)
    (by decide) (by decide)

def c6Md : EncryptionMetadata where
  encryption_key := "QQ=="
  hmac_key := base64Encode (List.replicate 32 0)
  iv := base64Encode (List.replicate 16 0)
  encrypted_hash := none
  plaintext_hash := none

def c6Img : ImageData where
  cdn_url := "u"
  encryption_metadata := some c6Md

theorem c6_invalid_key_length_before_fetch_witness :
    (decryptWhatsAppImage (mkPrims []) c6Img).2 = ⟨0, 0, 0⟩ ∧
    ∃ f, (decryptWhatsAppImage (mkPrims []) c6Img).1 = .error (.invalidKeyLength f) :=
  c6_invalid_key_length_before_fetch (mkPrims []) c6Img c6Md
    (by decide) rfl (by decide)

def c7Md : EncryptionMetadata where
  encryption_key := base64Encode (List.replicate 32 0)
  hmac_key := base64Encode (List.replicate 32 0)
  iv := base64Encode (List.replicate 16 0)
  encrypted_hash := some "x"
  plaintext_hash := none

def c7Img : ImageData where
  cdn_url := "u"
  encryption_metadata := some c7Md

theorem c7_digest_mismatch_before_mac_witness :
    decryptWhatsAppImage (mkPrims (List.replicate 26 0)) c7Img
      = (.error .encryptedHashMismatch, ⟨1, 0, 0⟩) :=
  c7_digest_mismatch_before_mac (mkPrims (List.replicate 26 0)) c7Img c7Md
    (List.replicate 26 0) "x"
    (by decide) rfl (by decide) (by decide) (by decide) rfl (by decide)
    rfl (by decide) (by decide)

theorem c8_length_boundaries_witness :
    decryptWhatsAppImage (mkPrims (List.replicate 10 0)) wImgPlain
      = (.error .payloadTooSmall, ⟨1, 0, 0⟩) ∧
    decryptWhatsAppImage (mkPrims (List.replicate 25 0)) wImgPlain
      = (.error .misalignedCiphertext, ⟨1, 1, 0⟩) :=
  ⟨c8_length_boundaries.1 (mkPrims (List.replicate 10 0)) wImgPlain wMdPlain
      (List.replicate 10 0)
      (by decide) rfl (by decide) (by decide) (by decide) rfl (by decide),
   c8_length_boundaries.2 (mkPrims (List.replicate 25 0)) wImgPlain wMdPlain
      (List.replicate 25 0)
      (by decide) rfl (by decide) (by decide) (by decide) rfl (by decide)
      (by decide) (by decide) (by decide)⟩

def c9Md : EncryptionMetadata where
  encryption_key := base64Encode (List.replicate 32 0)
  hmac_key := base64Encode (List.replicate 32 0)
  iv := base64Encode (List.replicate 16 0)
  encrypted_hash := none
  plaintext_hash := some "y"

def c9Img : ImageData where
  cdn_url := "u"
  encryption_metadata := some c9Md

theorem c9_plaintext_digest_advisory_witness :
    decryptWhatsAppImage (mkPrims (List.replicate 16 1 ++ List.replicate 10 0)) c9Img
      = (.ok (base64Encode (List.replicate 15 1)), ⟨1, 1, 1⟩) :=
  c9_plaintext_digest_advisory
    (mkPrims (List.replicate 16 1 ++ List.replicate 10 0)) c9Img c9Md
    (List.replicate 16 1 ++ List.replicate 10 0) (List.replicate 15 1) "y"
    (by decide) rfl (by decide) (by decide) (by decide) rfl (by decide)
    (by decide) (by decide) (by decide) (by decide) rfl (by decide)

def c3kb : List Nat := List.replicate 32 0
def c3ivb : List Nat := List.replicate 16 0
def c3pt : List Nat := [1, 2, 3]

def c3benc : List Nat → List Nat → List Nat :=
  fun _ b => (b ++ List.replicate 16 0).take 16

def c3buf : List Nat :=
  aesCbcEncrypt (c3benc c3kb) c3ivb c3pt ++ (List.replicate 32 0).take 10

def c3P : MediaPrims where
  fetch := fun _ => some c3buf
  sha256 := fun _ => List.replicate 32 0
  hmacSha256 := fun _ _ => List.replicate 32 0
  aesBlockEnc := c3benc
  aesBlockDec := fun _ b => b

def c3Md : EncryptionMetadata where
  encryption_key := base64Encode c3kb
  hmac_key := base64Encode c3kb
  iv := base64Encode c3ivb
  encrypted_hash := none
  plaintext_hash := none

def c3Img : ImageData where
  cdn_url := "u"
  encryption_metadata := some c3Md

theorem c3_cbc_hmac_roundtrip_witness :
    decryptWhatsAppImage c3P c3Img = (.ok (base64Encode c3pt), ⟨1, 1, 1⟩) ∧
    base64Decode (base64Encode c3pt) = c3pt :=
  c3_cbc_hmac_roundtrip c3P c3Img c3Md c3kb c3kb c3ivb c3pt
    (by decide) rfl rfl rfl rfl
    (by decide) (by decide) (by decide) (by decide) (by decide) (by decide)
    (by decide)
    (by
      intro x hx
      show (x ++ List.replicate 16 0).take 16 = x
      rw [← hx]
      exact List.take_left _ _)
    (by
      intro x
      show ((x ++ List.replicate 16 0).take 16).length = 16
      rw [List.length_take, List.length_append, List.length_replicate]
      omega)
    (by intro k m; simp [c3P])
    (by decide)
    (by decide)

def wFlowPrims : FlowPrims (List Nat) where
  rsaOaepDecrypt := fun _ => some (List.replicate 32 0)
  gcmKeystream := fun _ _ n => List.replicate n 0
  gcmTag := fun _ _ _ => List.replicate 16 0
  stringify := fun o => o
  parse := fun bs => some bs

theorem c1_json_failure_uses_decrypt_failed_witness :
    decryptRequest c1Prims c1Body = .error (.decryptionFailed .jsonParse) :=
  c1_json_failure_uses_decrypt_failed c1Prims c1Body (List.replicate 32 0) []
    (by decide) (by decide) (by decide) rfl (by decide) rfl

theorem c4_gcm_roundtrip_witness :
    ∃ s pt, encryptResponse wFlowPrims [1, 2, 3] (List.replicate 32 0)
        (List.replicate 16 5) = .ok s ∧
      aesGcmDecrypt wFlowPrims (List.replicate 32 0) (flipIv (List.replicate 16 5))
        (base64Decode s) = some pt ∧
      wFlowPrims.parse pt = some [1, 2, 3] :=
  c4_gcm_roundtrip wFlowPrims [1, 2, 3] (List.replicate 32 0) (List.replicate 16 5)
    rfl (by decide) (by decide)
    (by intro n; simp [wFlowPrims])
    (by
      intro n b hb
      simp only [wFlowPrims] at hb
      have := List.eq_of_mem_replicate hb
      omega)
    (by intro c; simp [wFlowPrims])
    (by
      intro c b hb
      simp only [wFlowPrims] at hb
      have := List.eq_of_mem_replicate hb
      omega)
    (by decide)

theorem c5_key_iv_reused_exactly_witness :
    (∃ ekS ivS, c1Body.encrypted_aes_key = some ekS ∧
      c1Body.initial_vector = some ivS ∧
      wFlowPrims.rsaOaepDecrypt (base64Decode ekS) = some (List.replicate 32 0) ∧
      ([65] : List Nat) = base64Decode ivS) ∧
    handleEncryptedFlowDataExchange wFlowPrims (fun o => o) c1Body =
      .ok (base64Encode (aesGcmEncrypt wFlowPrims (List.replicate 32 0)
        (flipIv [65]) (wFlowPrims.stringify ([] : List Nat)))) :=
  c5_key_iv_reused_exactly wFlowPrims (fun o => o) c1Body [] (List.replicate 32 0) [65]
    rfl (by decide) (by decide)

theorem c10_output_length_reveals_plaintext_length_witness :
    ∃ s, encryptResponse wFlowPrims [1, 2, 3] (List.replicate 32 0)
        (List.replicate 16 5) = .ok s ∧
      (base64Decode s).length = (wFlowPrims.stringify [1, 2, 3]).length + 16 :=
  c10_output_length_reveals_plaintext_length wFlowPrims [1, 2, 3]
    (List.replicate 32 0) (List.replicate 16 5)
    (by decide) (by decide)
    (by intro n; simp [wFlowPrims])
    (by
      intro n b hb
      simp only [wFlowPrims] at hb
      have := List.eq_of_mem_replicate hb
      omega)
    (by intro c; simp [wFlowPrims])
    (by
      intro c b hb
      simp only [wFlowPrims] at hb
      have := List.eq_of_mem_replicate hb
      omega)
    (by decide)

end ImageSaas
